import Mathlib

/-!
Shallow embedding of the cryptographic core of the Quantum-Secure-Email-Client
repository (src/level2new/aes_gcm.c, src/level1/encoder.c,
src/Key_Manager/km_client.c), together with theorems settling the frozen
claims about it.

Bytes are modelled as `Nat` (values of C `uint8_t` are < 256); byte buffers
are `List Nat`.  Machine-integer wraparound is written explicitly
(`% 2^32`, `% 2^64`, `% 256`) exactly where the C code relies on it.

The AES-128 single-block cipher (`key_expansion_128` together with
`aes_encrypt_block_128`, declared in src/level2new/aes.h) is implemented in a
file that is not part of src/.  Modelled from the spec: sections 4.1-4.3
describe it as a pure deterministic function from a 16-byte key and a 16-byte
input block to a 16-byte output block, with no internal state.  All GCM-layer
definitions below are therefore parametrised by such a function
`E : List Nat → List Nat → List Nat` (key, block ↦ encrypted block).
-/

/-- The all-zero 16-byte block (`uint8_t z[16] = {0}`). -/
def zero16 : List Nat := List.replicate 16 0

/-- Byte-wise XOR of two 16-byte buffers, as in the C loops
`for (j = 0; j < 16; ++j) a[j] ^= b[j];`. -/
def xor16 (a b : List Nat) : List Nat :=
  (List.range 16).map fun i => (a.getD i 0) ^^^ (b.getD i 0)

/-- `be_store64` (src/level2new/aes_gcm.c:7-9): store a `uint64_t` value
big-endian into 8 bytes.  The `% 2^64` models the `uint64_t` argument type,
the `% 256` the `(uint8_t)(v & 0xFF)` cast. -/
def be_store64 (v : Nat) : List Nat :=
  (List.range 8).map fun i => ((v % 18446744073709551616) >>> (8 * (7 - i))) % 256

/-- `consttime_eq16` (src/level2new/aes_gcm.c:10-12):
`x = 0; for i in 0..15, x |= a[i] ^ b[i]; return x == 0`.
The `(uint8_t)` cast is the identity on its operands (both are `uint8_t`). -/
def consttime_eq16 (a b : List Nat) : Bool :=
  ((List.range 16).foldl (fun x i => x ||| ((a.getD i 0) ^^^ (b.getD i 0))) 0) == 0

/-- `consttime_eq16` instrumented with an operation counter: the first
component counts executed loop iterations, the second is the returned
comparison result.  Same loop body as `consttime_eq16`. -/
def consttime_eq16_trace (a b : List Nat) : Nat × Bool :=
  let p := (List.range 16).foldl
    (fun (s : Nat × Nat) i => (s.1 + 1, s.2 ||| ((a.getD i 0) ^^^ (b.getD i 0))))
    (0, 0)
  (p.1, p.2 == 0)

/-- `inc32` (src/level2new/aes_gcm.c:13-17): read bytes 12..15 as a 32-bit
big-endian integer, add one (`uint32_t` arithmetic, hence `% 2^32`), and
store the result back big-endian into bytes 12..15. -/
def inc32 (y : List Nat) : List Nat :=
  let n := ((y.getD 12 0) <<< 24) ||| ((y.getD 13 0) <<< 16) |||
           ((y.getD 14 0) <<< 8) ||| (y.getD 15 0)
  let n1 := (n + 1) % 4294967296
  ((((y.set 12 ((n1 >>> 24) % 256)).set 13 ((n1 >>> 16) % 256)).set
      14 ((n1 >>> 8) % 256)).set 15 (n1 % 256))

/-- One right shift of the 128-bit value `V` by one bit
(src/level2new/aes_gcm.c:33-34): `V[j] = (V[j] >> 1) | ((V[j-1] & 1) << 7)`
for j = 15..1, then `V[0] >>= 1`. -/
def gcm_shift (v : List Nat) : List Nat :=
  (List.range 16).map fun j =>
    if j = 0 then (v.getD 0 0) >>> 1
    else ((v.getD j 0) >>> 1) ||| (((v.getD (j - 1) 0) &&& 1) <<< 7)

/-- One update of `V` inside `gcm_mult` (src/level2new/aes_gcm.c:31-35):
remember the least-significant bit, shift right by one, and XOR the
reduction constant 0xE1 into byte 0 when the shifted-out bit was 1. -/
def gcm_vstep (v : List Nat) : List Nat :=
  let lsb := (v.getD 15 0) &&& 1
  let v1 := gcm_shift v
  if lsb = 1 then v1.set 0 ((v1.getD 0 0) ^^^ 0xe1) else v1

/-- Inner loop of `gcm_mult` (src/level2new/aes_gcm.c:27-36) over the bits
of one byte `x` of `X`, most significant first: if the bit is set,
`Z ^= V`; then update `V`. -/
def gcm_inner (x : Nat) (zv : List Nat × List Nat) : List Nat × List Nat :=
  [7, 6, 5, 4, 3, 2, 1, 0].foldl
    (fun zv b =>
      ((if (x >>> b) &&& 1 = 1 then xor16 zv.1 zv.2 else zv.1), gcm_vstep zv.2))
    zv

/-- `gcm_mult` (src/level2new/aes_gcm.c:21-39): multiply `X` by `Y` in
GF(2^128), bit by bit per SP800-38D; `Z` starts at 0, `V` starts at `Y`. -/
def gcm_mult (X Y : List Nat) : List Nat :=
  ((List.range 16).foldl (fun zv i => gcm_inner (X.getD i 0) zv) (zero16, Y)).1

/-- The 16-byte block read at byte offset `off` of `L` by
`memcpy(blk, L + off, n)` with `n = min 16 (L.length - off)` into a
zero-initialised block (src/level2new/aes_gcm.c:52-54). -/
def blkAt (L : List Nat) (off : Nat) : List Nat :=
  ((L.drop off).take 16) ++ List.replicate (16 - min 16 (L.length - off)) 0

/-- Number of iterations of `for (off = 0; off < len; off += 16)`. -/
def nblocks (len : Nat) : Nat := (len + 15) / 16

/-- One of the two block-processing loops of `ghash`
(src/level2new/aes_gcm.c:51-58 and 61-68): for every 16-byte block of `L`
(the final partial block zero-padded), XOR the block into `Y` and multiply
by `H`. -/
def ghash_blocks (H L Y : List Nat) : List Nat :=
  (List.range (nblocks L.length)).foldl
    (fun Y i => gcm_mult (xor16 Y (blkAt L (16 * i))) H) Y

/-- `ghash` (src/level2new/aes_gcm.c:42-79): process the AAD blocks, then
the ciphertext blocks, then the 16-byte block holding the bit lengths of
both as two 64-bit big-endian integers. -/
def ghash (H A C : List Nat) : List Nat :=
  let Y1 := ghash_blocks H A zero16
  let Y2 := ghash_blocks H C Y1
  let lenblk := be_store64 (8 * A.length) ++ be_store64 (8 * C.length)
  gcm_mult (xor16 Y2 lenblk) H

/-- `gctr` (src/level2new/aes_gcm.c:82-98): AES-CTR keystream XOR starting
from counter block `counter`; after each 16-byte block the counter is
incremented with `inc32`.  `E` is the single-block cipher (in the C code:
`key_expansion_128` once, then `aes_encrypt_block_128` per block). -/
def gctr (E : List Nat → List Nat → List Nat) (key counter input : List Nat) :
    List Nat :=
  if input = [] then []
  else
    let Ek := E key counter
    let n := min 16 input.length
    ((List.range n).map fun i => (input.getD i 0) ^^^ (Ek.getD i 0)) ++
      gctr E key (inc32 counter) (input.drop 16)
termination_by input.length
decreasing_by
  simp only [List.length_drop]
  have : input.length ≠ 0 := by
    simpa [List.length_eq_zero] using (by assumption : ¬ input = [])
  omega

/-- `derive_J0` (src/level2new/aes_gcm.c:103-113): a 12-byte IV is extended
with the 4-byte big-endian constant 1; any other IV is hashed with `ghash`
as ciphertext with empty AAD. -/
def derive_J0 (H iv : List Nat) : List Nat :=
  if iv.length = 12 then iv.take 12 ++ [0, 0, 0, 1]
  else ghash H [] iv

/-- Result of `aes128_gcm_encrypt`: the C return value and the values left
in the out-parameters `*ct`, `*ct_len` and `tag[16]` (`none` models an
out-pointer that is NULL or was never written). -/
structure EncOut where
  ret : Int
  ct : Option (List Nat)
  ct_len : Nat
  tag : Option (List Nat)
deriving DecidableEq, Repr

/-- Result of `aes128_gcm_decrypt`: return value and out-parameters
`*pt`, `*pt_len` (`none` models a NULL plaintext pointer). -/
structure DecOut where
  ret : Int
  pt : Option (List Nat)
  pt_len : Nat
deriving DecidableEq, Repr

/-- The tag computation shared verbatim by encryption
(src/level2new/aes_gcm.c:143-148) and decryption (lines 176-180):
`T = E_k(J0) XOR GHASH_H(A, C)` with `H = E_k(0^128)` and `J0` derived
from the IV. -/
def gcm_expected_tag (E : List Nat → List Nat → List Nat)
    (key iv aad ct : List Nat) : List Nat :=
  let H := E key zero16
  let J0 := derive_J0 H iv
  xor16 (E key J0) (ghash H aad ct)

/-- `aes128_gcm_encrypt` (src/level2new/aes_gcm.c:115-151).  Modelling
notes: `malloc` is assumed to succeed; the `!pt && pt_len` NULL-pointer
check has no counterpart for lists; on the early `-1` return the
out-parameters are unwritten, modelled as `none` / `0`. -/
def aes128_gcm_encrypt (E : List Nat → List Nat → List Nat)
    (pt aad key iv : List Nat) : EncOut :=
  if iv = [] then ⟨-1, none, 0, none⟩
  else
    let H := E key zero16
    let J0 := derive_J0 H iv
    let ct := gctr E key (inc32 J0) pt
    ⟨0, some ct, pt.length, some (gcm_expected_tag E key iv aad ct)⟩

/-- `aes128_gcm_decrypt` (src/level2new/aes_gcm.c:153-193): recompute the
expected tag from the received ciphertext and AAD, compare with
`consttime_eq16`; on mismatch free the buffer, set `*pt = NULL`,
`*pt_len = 0` and return -1; on match decrypt with `gctr`. -/
def aes128_gcm_decrypt (E : List Nat → List Nat → List Nat)
    (ct aad key iv tag : List Nat) : DecOut :=
  if iv = [] then ⟨-1, none, 0⟩
  else
    let H := E key zero16
    let J0 := derive_J0 H iv
    if consttime_eq16 tag (gcm_expected_tag E key iv aad ct) then
      ⟨0, some (gctr E key (inc32 J0) ct), ct.length⟩
    else ⟨-1, none, 0⟩

/-! ### Specification-side Galois Hash (for the refinement claim C4)

`ghash_spec` follows the wording of spec sections 4.6: split the associated
data and then the ciphertext into successive 16-byte blocks, zero-padding
the final partial block of each section; XOR each block into the running
value `Y` and multiply by `H` after every block; finally XOR in the length
block (bit lengths as two 64-bit big-endian integers) and multiply once
more.  The block decomposition is written independently of the code's
offset loop, as an explicit list of blocks. -/

/-- The successive 16-byte blocks of `L`, the last one zero-padded to 16
bytes (spec 4.6: "each successive 16-byte block ... zero-padding the final
partial block"). -/
def specBlocks (L : List Nat) : List (List Nat) :=
  if L = [] then []
  else (L.take 16 ++ List.replicate (16 - min 16 L.length) 0) :: specBlocks (L.drop 16)
termination_by L.length
decreasing_by
  simp only [List.length_drop]
  have : L.length ≠ 0 := by
    simpa [List.length_eq_zero] using (by assumption : ¬ L = [])
  omega

/-- Galois Hash as worded in the spec (4.6): fold the block list of the
associated data, then of the ciphertext, over `Y ↦ (Y ⊕ B) * H`, then the
length block. -/
def ghash_spec (H A C : List Nat) : List Nat :=
  let step := fun Y B => gcm_mult (xor16 Y B) H
  let Ya := (specBlocks A).foldl step zero16
  let Yc := (specBlocks C).foldl step Ya
  gcm_mult (xor16 Yc (be_store64 (8 * A.length) ++ be_store64 (8 * C.length))) H

/-! ### Level-1 one-time-pad encoder (src/level1/encoder.c) -/

/-- `one_time_pad` (src/level1/encoder.c:6-32), on byte streams: for each
plaintext byte `c`, read one key byte; if the key stream is exhausted,
return 1 having written the output bytes produced so far; otherwise write
`(unsigned char)c ^ (unsigned char)c` and continue; return 0 at end of
input.  (`fputc` failure is an I/O condition outside the byte-stream model;
writes are modelled as succeeding.)  Result: (return value, bytes written
to the cipher file). -/
def one_time_pad : List Nat → List Nat → Int × List Nat
  | [], _ => (0, [])
  | _ :: _, [] => (1, [])
  | c :: cs, _ :: ks =>
    let out := (c % 256) ^^^ (c % 256)
    let r := one_time_pad cs ks
    (r.1, out :: r.2)

/-! ### Key-manager client (src/Key_Manager/km_client.c) -/

/-- Result of `km_fetch_key_by_id`: C return value, lines printed to
stderr, and the cleaned key id substituted into the curl command. -/
structure KmFetchOut where
  ret : Int
  stderr : List String
  cmd_key_id : List Nat
deriving DecidableEq, Repr

/-- `km_fetch_key_by_id` (src/Key_Manager/km_client.c:53-70): strip CR/LF
bytes from the key id (at most 255 bytes are kept, the buffer is 256 bytes
with a terminating NUL), run the curl command; if the command status is
nonzero, print "KM: HTTP fetch failed (bad key_id or KM Down)" to stderr;
return 0 in every case.  The external command's exit status is the
parameter `cmd_status`. -/
def km_fetch_key_by_id (cmd_status : Int) (key_id : List Nat) : KmFetchOut :=
  let idclean := (key_id.filter fun c => !(c == 13 || c == 10)).take 255
  if cmd_status != 0 then
    ⟨0, ["KM: HTTP fetch failed (bad key_id or KM Down)"], idclean⟩
  else ⟨0, [], idclean⟩

/-! ## Helper lemmas: Nat bit operations and list indexing -/

lemma lor_eq_zero_iff (a b : Nat) : a ||| b = 0 ↔ a = 0 ∧ b = 0 := by
  constructor
  · intro h
    constructor
    · exact Nat.eq_of_testBit_eq fun i => by
        have := congrArg (fun n => n.testBit i) h
        simp [Nat.testBit_or] at this
        simp [this.1]
    · exact Nat.eq_of_testBit_eq fun i => by
        have := congrArg (fun n => n.testBit i) h
        simp [Nat.testBit_or] at this
        simp [this.2]
  · rintro ⟨rfl, rfl⟩; rfl

lemma shiftRight_xor (a b i : Nat) : (a ^^^ b) >>> i = (a >>> i) ^^^ (b >>> i) :=
  Nat.eq_of_testBit_eq fun j => by simp [Nat.testBit_shiftRight, Nat.testBit_xor]

lemma getD_map_range (f : Nat → Nat) {i n : Nat} (h : i < n) :
    ((List.range n).map f).getD i 0 = f i := by
  rw [List.getD_eq_getElem _ _ (by simpa using h)]
  simp

lemma getD_map_range_ge (f : Nat → Nat) {i n : Nat} (h : n ≤ i) :
    ((List.range n).map f).getD i 0 = 0 := by
  apply List.getD_eq_default
  simpa using h

lemma map_getD_range_eq_take {l : List Nat} :
    ∀ {n : Nat}, n ≤ l.length → (List.range n).map (fun i => l.getD i 0) = l.take n := by
  intro n
  induction n with
  | zero => intro _; simp
  | succ m ih =>
    intro h
    rw [List.range_succ, List.map_append, ih (by omega), List.take_succ]
    have hm : m < l.length := by omega
    simp [List.getElem?_eq_getElem hm, List.getD_eq_getElem l 0 hm]

/-! ## Helper lemmas: xor16 -/

lemma length_xor16 (a b : List Nat) : (xor16 a b).length = 16 := by
  simp [xor16]

lemma getD_xor16 (a b : List Nat) {i : Nat} (h : i < 16) :
    (xor16 a b).getD i 0 = (a.getD i 0) ^^^ (b.getD i 0) := by
  rw [xor16, getD_map_range _ h]

lemma list16_ext {a b : List Nat} (ha : a.length = 16) (hb : b.length = 16)
    (h : ∀ i < 16, a.getD i 0 = b.getD i 0) : a = b := by
  apply List.ext_getElem (by omega)
  intro i hi _
  have hi16 : i < 16 := by omega
  have := h i hi16
  rwa [List.getD_eq_getElem a 0 hi, List.getD_eq_getElem b 0 (by omega)] at this

lemma xor16_comm (a b : List Nat) : xor16 a b = xor16 b a := by
  apply list16_ext (length_xor16 _ _) (length_xor16 _ _)
  intro i hi
  rw [getD_xor16 _ _ hi, getD_xor16 _ _ hi, Nat.xor_comm]

lemma getD_zero16 (i : Nat) : zero16.getD i 0 = 0 := by
  rcases Nat.lt_or_ge i 16 with h | h
  · rw [zero16, List.getD_eq_getElem _ _ (by simpa using h), List.getElem_replicate]
  · exact List.getD_eq_default _ _ (by simpa [zero16] using h)

lemma xor16_self (a : List Nat) : xor16 a a = zero16 := by
  apply list16_ext (length_xor16 _ _) (by simp [zero16])
  intro i hi
  rw [getD_xor16 _ _ hi, Nat.xor_self, getD_zero16]

lemma xor16_zero_right {a : List Nat} (ha : a.length = 16) : xor16 a zero16 = a := by
  apply list16_ext (length_xor16 _ _) ha
  intro i hi
  rw [getD_xor16 _ _ hi, getD_zero16, Nat.xor_zero]

lemma xor16_zero_left {a : List Nat} (ha : a.length = 16) : xor16 zero16 a = a := by
  rw [xor16_comm]; exact xor16_zero_right ha

lemma xor16_assoc (a b c : List Nat) :
    xor16 (xor16 a b) c = xor16 a (xor16 b c) := by
  apply list16_ext (length_xor16 _ _) (length_xor16 _ _)
  intro i hi
  rw [getD_xor16 _ _ hi, getD_xor16 _ _ hi, getD_xor16 _ _ hi, getD_xor16 _ _ hi,
    Nat.xor_assoc]

lemma xor16_right_comm (a b c : List Nat) :
    xor16 (xor16 a b) c = xor16 (xor16 a c) b := by
  apply list16_ext (length_xor16 _ _) (length_xor16 _ _)
  intro i hi
  rw [getD_xor16 _ _ hi, getD_xor16 _ _ hi, getD_xor16 _ _ hi, getD_xor16 _ _ hi]
  rw [Nat.xor_assoc, Nat.xor_comm (b.getD i 0), ← Nat.xor_assoc]

lemma xor16_cancel_pair (a b v : List Nat) :
    xor16 (xor16 a v) (xor16 b v) = xor16 a b := by
  apply list16_ext (length_xor16 _ _) (length_xor16 _ _)
  intro i hi
  rw [getD_xor16 _ _ hi, getD_xor16 _ _ hi, getD_xor16 _ _ hi, getD_xor16 _ _ hi]
  rw [Nat.xor_comm (b.getD i 0), ← Nat.xor_assoc, Nat.xor_cancel_right]

/-! ## Helper lemmas: consttime_eq16 -/

lemma foldl_or_zero_iff (g : Nat → Nat) :
    ∀ (l : List Nat) (x : Nat),
      (l.foldl (fun a i => a ||| g i) x = 0 ↔ x = 0 ∧ ∀ i ∈ l, g i = 0) := by
  intro l
  induction l with
  | nil => intro x; simp
  | cons hd tl ih =>
    intro x
    rw [List.foldl_cons, ih]
    rw [lor_eq_zero_iff]
    constructor
    · rintro ⟨⟨hx, hhd⟩, htl⟩
      exact ⟨hx, by
        intro i hi
        rcases List.mem_cons.mp hi with rfl | hi
        · exact hhd
        · exact htl i hi⟩
    · rintro ⟨hx, hall⟩
      exact ⟨⟨hx, hall hd (by simp)⟩, fun i hi => hall i (by simp [hi])⟩

lemma consttime_eq16_true_iff (a b : List Nat) :
    consttime_eq16 a b = true ↔ ∀ i < 16, a.getD i 0 = b.getD i 0 := by
  rw [consttime_eq16, beq_iff_eq,
    foldl_or_zero_iff (fun i => (a.getD i 0) ^^^ (b.getD i 0))]
  simp only [List.mem_range, true_and]
  constructor
  · intro h i hi
    exact Nat.xor_eq_zero.mp (h i hi)
  · intro h i hi
    exact Nat.xor_eq_zero.mpr (h i hi)

lemma consttime_eq16_self (a : List Nat) : consttime_eq16 a a = true :=
  (consttime_eq16_true_iff a a).mpr fun _ _ => rfl

lemma consttime_eq16_eq_iff {a b : List Nat} (ha : a.length = 16)
    (hb : b.length = 16) : consttime_eq16 a b = true ↔ a = b := by
  rw [consttime_eq16_true_iff]
  constructor
  · intro h
    exact list16_ext ha hb h
  · rintro rfl _ _; rfl

/-! ## Helper lemmas: gctr -/

lemma gctr_nil (E : List Nat → List Nat → List Nat) (key c : List Nat) :
    gctr E key c [] = [] := by
  rw [gctr]; simp

lemma gctr_ne_nil (E : List Nat → List Nat → List Nat) (key c input : List Nat)
    (h : input ≠ []) :
    gctr E key c input =
      ((List.range (min 16 input.length)).map fun i =>
        (input.getD i 0) ^^^ ((E key c).getD i 0)) ++
        gctr E key (inc32 c) (input.drop 16) := by
  rw [gctr]
  simp [h]

lemma gctr_length (E : List Nat → List Nat → List Nat) (key : List Nat) :
    ∀ (n : Nat) (c input : List Nat), input.length ≤ n →
      (gctr E key c input).length = input.length := by
  intro n
  induction n with
  | zero =>
    intro c input h
    have : input = [] := List.length_eq_zero.mp (by omega)
    subst this
    rw [gctr_nil]
  | succ m ih =>
    intro c input h
    by_cases hnil : input = []
    · subst hnil; rw [gctr_nil]
    · rw [gctr_ne_nil _ _ _ _ hnil, List.length_append, List.length_map,
        List.length_range,
        ih (inc32 c) (input.drop 16) (by simp [List.length_drop]; omega)]
      have hpos : input.length ≠ 0 := by
        simpa [List.length_eq_zero] using hnil
      simp [List.length_drop]
      omega

lemma gctr_length16 (E : List Nat → List Nat → List Nat) (key c input : List Nat) :
    (gctr E key c input).length = input.length :=
  gctr_length E key input.length c input le_rfl

lemma gctr_drop16 (E : List Nat → List Nat → List Nat) (key c input : List Nat) :
    (gctr E key c input).drop 16 = gctr E key (inc32 c) (input.drop 16) := by
  by_cases hnil : input = []
  · subst hnil
    rw [gctr_nil]
    simp [gctr_nil]
  · rw [gctr_ne_nil _ _ _ _ hnil]
    rcases Nat.lt_or_ge input.length 16 with hlt | hge
    · have h16 : input.drop 16 = [] := List.drop_eq_nil_of_le (by omega)
      rw [h16, gctr_nil, List.append_nil]
      exact List.drop_eq_nil_of_le (by simp)
    · have hmin : min 16 input.length = 16 := by omega
      rw [hmin]
      have hlen : ((List.range 16).map fun i =>
          (input.getD i 0) ^^^ ((E key c).getD i 0)).length = 16 := by simp
      calc (((List.range 16).map fun i =>
              (input.getD i 0) ^^^ ((E key c).getD i 0)) ++
            gctr E key (inc32 c) (input.drop 16)).drop 16
          = (((List.range 16).map fun i =>
              (input.getD i 0) ^^^ ((E key c).getD i 0)) ++
            gctr E key (inc32 c) (input.drop 16)).drop
              ((List.range 16).map fun i =>
                (input.getD i 0) ^^^ ((E key c).getD i 0)).length := by rw [hlen]
        _ = gctr E key (inc32 c) (input.drop 16) := List.drop_left _ _

lemma gctr_getD_front (E : List Nat → List Nat → List Nat) (key c input : List Nat)
    {i : Nat} (hi : i < min 16 input.length) :
    (gctr E key c input).getD i 0 = (input.getD i 0) ^^^ ((E key c).getD i 0) := by
  have hnil : input ≠ [] := by
    intro h; subst h; simp at hi
  rw [gctr_ne_nil _ _ _ _ hnil]
  rw [List.getD_append _ _ _ _ (by simpa using hi)]
  exact getD_map_range _ hi

lemma gctr_gctr_aux (E : List Nat → List Nat → List Nat) (key : List Nat) :
    ∀ (n : Nat) (c input : List Nat), input.length ≤ n →
      gctr E key c (gctr E key c input) = input := by
  intro n
  induction n with
  | zero =>
    intro c input h
    have : input = [] := List.length_eq_zero.mp (by omega)
    subst this
    rw [gctr_nil, gctr_nil]
  | succ m ih =>
    intro c input h
    by_cases hnil : input = []
    · subst hnil; rw [gctr_nil, gctr_nil]
    · have hout_len : (gctr E key c input).length = input.length :=
        gctr_length16 E key c input
      have hout_nil : gctr E key c input ≠ [] := by
        intro hh
        exact hnil (List.length_eq_zero.mp (by rw [← hout_len, hh]; rfl))
      rw [gctr_ne_nil _ _ _ _ hout_nil, hout_len, gctr_drop16]
      have hrest : gctr E key (inc32 c) (gctr E key (inc32 c) (input.drop 16)) =
          input.drop 16 := by
        apply ih
        have : input.length ≠ 0 := by simpa [List.length_eq_zero] using hnil
        simp [List.length_drop]; omega
      rw [hrest]
      have hchunk : ((List.range (min 16 input.length)).map fun i =>
            ((gctr E key c input).getD i 0) ^^^ ((E key c).getD i 0)) =
          (List.range (min 16 input.length)).map fun i => input.getD i 0 := by
        apply List.map_congr_left
        intro i hi
        rw [gctr_getD_front E key c input (by simpa using hi)]
        exact Nat.xor_cancel_right _ _
      rw [hchunk, map_getD_range_eq_take (by omega)]
      rcases Nat.lt_or_ge input.length 16 with hlt | hge
      · have : min 16 input.length = input.length := by omega
        rw [this, List.take_length, List.drop_eq_nil_of_le (by omega),
          List.append_nil]
      · have : min 16 input.length = 16 := by omega
        rw [this, List.take_append_drop]

lemma gctr_gctr (E : List Nat → List Nat → List Nat) (key c input : List Nat) :
    gctr E key c (gctr E key c input) = input :=
  gctr_gctr_aux E key input.length c input le_rfl

/-! ## Claim C1 -/

/-- Claim C1: authenticated-mode round-trip.  For every block cipher `E`
(the AES-128 single-block cipher is modelled from the spec as an arbitrary
deterministic function), every 16-byte key, every IV of length at least 1,
every associated data and every plaintext, `aes128_gcm_encrypt` succeeds
returning a ciphertext and tag, and `aes128_gcm_decrypt` on that ciphertext
and tag succeeds and returns a plaintext byte-identical to (hence of the
same length as) the original. -/
theorem C1_gcm_roundtrip (E : List Nat → List Nat → List Nat)
    (key iv aad pt : List Nat) (_hkey : key.length = 16) (hiv : 1 ≤ iv.length) :
    ∃ ct tag,
      aes128_gcm_encrypt E pt aad key iv = ⟨0, some ct, pt.length, some tag⟩ ∧
      aes128_gcm_decrypt E ct aad key iv tag = ⟨0, some pt, pt.length⟩ := by
  have hivne : iv ≠ [] := by
    intro h; subst h; simp at hiv
  refine ⟨gctr E key (inc32 (derive_J0 (E key zero16) iv)) pt,
    gcm_expected_tag E key iv aad
      (gctr E key (inc32 (derive_J0 (E key zero16) iv)) pt), ?_, ?_⟩
  · rw [aes128_gcm_encrypt, if_neg hivne]
  · rw [aes128_gcm_decrypt, if_neg hivne]
    simp only []
    rw [if_pos (consttime_eq16_self _), gctr_gctr, gctr_length16]

/-- Witness for C1 at a concrete cipher, key, IV, AAD and plaintext. -/
theorem C1_gcm_roundtrip_witness :
    ∃ ct tag,
      aes128_gcm_encrypt (fun _ b => (b ++ List.replicate 16 0).take 16)
          [5] [7] (List.replicate 16 0) (List.replicate 12 0) =
        ⟨0, some ct, 1, some tag⟩ ∧
      aes128_gcm_decrypt (fun _ b => (b ++ List.replicate 16 0).take 16)
          ct [7] (List.replicate 16 0) (List.replicate 12 0) tag =
        ⟨0, some [5], 1⟩ :=
  C1_gcm_roundtrip (fun _ b => (b ++ List.replicate 16 0).take 16)
    (List.replicate 16 0) (List.replicate 12 0) [7] [5] (by decide) (by decide)

/-! ## Claim C2 -/

/-- Claim C2: authentication-failure atomicity.  If the supplied 16-byte
tag differs from the tag recomputed from the received ciphertext and
associated data, `aes128_gcm_decrypt` returns -1 with the plaintext
out-pointer NULL and the reported plaintext length 0; and a plaintext is
produced only when the supplied tag equals the recomputed tag. -/
theorem C2_auth_failure_atomicity (E : List Nat → List Nat → List Nat)
    (key iv aad ct tag : List Nat) (hiv : 1 ≤ iv.length) (htag : tag.length = 16) :
    (tag ≠ gcm_expected_tag E key iv aad ct →
      aes128_gcm_decrypt E ct aad key iv tag = ⟨-1, none, 0⟩) ∧
    (∀ p, (aes128_gcm_decrypt E ct aad key iv tag).pt = some p →
      tag = gcm_expected_tag E key iv aad ct) := by
  have hivne : iv ≠ [] := by
    intro h; subst h; simp at hiv
  have hexplen : (gcm_expected_tag E key iv aad ct).length = 16 := by
    rw [gcm_expected_tag]; exact length_xor16 _ _
  by_cases hcmp : consttime_eq16 tag (gcm_expected_tag E key iv aad ct) = true
  · have heq : tag = gcm_expected_tag E key iv aad ct :=
      (consttime_eq16_eq_iff htag hexplen).mp hcmp
    exact ⟨fun hne => absurd heq hne, fun _ _ => heq⟩
  · have hdec : aes128_gcm_decrypt E ct aad key iv tag = ⟨-1, none, 0⟩ := by
      rw [aes128_gcm_decrypt, if_neg hivne]
      simp only []
      rw [if_neg hcmp]
    constructor
    · intro _; exact hdec
    · intro p hp
      rw [hdec] at hp
      simp at hp

set_option maxHeartbeats 1600000 in
/-- Witness for C2 at concrete inputs whose supplied tag mismatches. -/
theorem C2_auth_failure_atomicity_witness :
    aes128_gcm_decrypt (fun _ b => (b ++ List.replicate 16 0).take 16)
        [] [] (List.replicate 16 0) (List.replicate 12 0) (List.replicate 16 0) =
      ⟨-1, none, 0⟩ := by
  have h := (C2_auth_failure_atomicity (fun _ b => (b ++ List.replicate 16 0).take 16)
    (List.replicate 16 0) (List.replicate 12 0) [] [] (List.replicate 16 0)
    (by decide) (by decide)).1
  exact h (by decide)

/-! ## Claim C5 -/

/-- Claim C5: J0 derivation branching.  For a 12-byte IV, `derive_J0`
returns the IV concatenated with the 4-byte big-endian value 1; for any
other IV length it returns the Galois Hash under `H` of the IV alone,
processed as ciphertext with empty associated data. -/
theorem C5_derive_J0_branches (H iv : List Nat) :
    (iv.length = 12 → derive_J0 H iv = iv ++ [0, 0, 0, 1]) ∧
    (iv.length ≠ 12 → derive_J0 H iv = ghash H [] iv) := by
  constructor
  · intro h
    rw [derive_J0, if_pos h, ← h, List.take_length]
  · intro h
    rw [derive_J0, if_neg h]

/-- Witness for C5 at a 12-byte IV and at a 2-byte IV. -/
theorem C5_derive_J0_branches_witness :
    derive_J0 zero16 (List.replicate 12 3) = List.replicate 12 3 ++ [0, 0, 0, 1] ∧
    derive_J0 zero16 [1, 2] = ghash zero16 [] [1, 2] :=
  ⟨(C5_derive_J0_branches zero16 (List.replicate 12 3)).1 (by decide),
   (C5_derive_J0_branches zero16 [1, 2]).2 (by decide)⟩

/-! ## Claim C6 -/

lemma foldl_pair_count_snd (g : Nat → Nat → Nat) :
    ∀ (l : List Nat) (c z : Nat),
      (l.foldl (fun (s : Nat × Nat) i => (s.1 + 1, g s.2 i)) (c, z)).1 = c + l.length ∧
      (l.foldl (fun (s : Nat × Nat) i => (s.1 + 1, g s.2 i)) (c, z)).2 =
        l.foldl g z := by
  intro l
  induction l with
  | nil => intro c z; simp
  | cons hd tl ih =>
    intro c z
    rw [List.foldl_cons, List.foldl_cons]
    refine ⟨?_, (ih (c + 1) (g z hd)).2⟩
    rw [(ih (c + 1) (g z hd)).1, List.length_cons]
    omega

/-- Claim C6: the tag comparison of `aes128_gcm_decrypt` executes a fixed
number of loop iterations (16) regardless of its inputs, i.e. independent
of where or whether a mismatch occurs; its result agrees with
`consttime_eq16`; and for 16-byte arrays `consttime_eq16 a b` returns true
if and only if `a = b`. -/
theorem C6_consttime_comparison (a b : List Nat) :
    (consttime_eq16_trace a b).1 = 16 ∧
    (consttime_eq16_trace a b).2 = consttime_eq16 a b ∧
    (a.length = 16 → b.length = 16 → (consttime_eq16 a b = true ↔ a = b)) := by
  refine ⟨?_, ?_, fun ha hb => consttime_eq16_eq_iff ha hb⟩
  · have h := (foldl_pair_count_snd
      (fun z i => z ||| ((a.getD i 0) ^^^ (b.getD i 0))) (List.range 16) 0 0).1
    simpa [consttime_eq16_trace] using h
  · have h := (foldl_pair_count_snd
      (fun z i => z ||| ((a.getD i 0) ^^^ (b.getD i 0))) (List.range 16) 0 0).2
    simpa [consttime_eq16_trace, consttime_eq16] using
      congrArg (fun x => x == (0 : Nat)) h

/-- Witness for C6 at two concrete 16-byte arrays differing in one byte. -/
theorem C6_consttime_comparison_witness :
    (consttime_eq16_trace (List.replicate 16 7) zero16).1 = 16 ∧
    (consttime_eq16 (List.replicate 16 7) zero16 = true ↔
      List.replicate 16 7 = zero16) :=
  ⟨(C6_consttime_comparison (List.replicate 16 7) zero16).1,
   (C6_consttime_comparison (List.replicate 16 7) zero16).2.2 (by decide) (by decide)⟩

/-! ## Claim C9 -/

/-- Claim C9: the level-1 `one_time_pad` encoder, for a key stream at least
as long as the plaintext, succeeds (returns 0) and writes exactly one
ciphertext byte per plaintext byte, every written byte being 0 (the
plaintext byte XORed with itself), independent of the key and plaintext
values. -/
theorem C9_otp_zero_output (ps ks : List Nat) (h : ps.length ≤ ks.length) :
    one_time_pad ps ks = (0, List.replicate ps.length 0) := by
  induction ps generalizing ks with
  | nil => rw [one_time_pad]; simp
  | cons c cs ih =>
    cases ks with
    | nil => simp at h
    | cons k ks2 =>
      rw [one_time_pad, ih ks2 (by simpa using h), Nat.xor_self]
      simp [List.replicate_succ]

/-- Witness for C9 at a concrete plaintext and key stream. -/
theorem C9_otp_zero_output_witness :
    one_time_pad [65, 66] [9, 200, 3] = (0, [0, 0]) :=
  C9_otp_zero_output [65, 66] [9, 200, 3] (by decide)

/-! ## Claim C10 -/

/-- Claim C10: `km_fetch_key_by_id` returns 0 for every input, including
when the underlying key-fetch command fails (nonzero `cmd_status`); in
that case the failure is only reported on stderr, so the caller cannot
distinguish a failed fetch from a successful one by the return value. -/
theorem C10_km_fetch_returns_zero (st : Int) (keyid : List Nat) :
    (km_fetch_key_by_id st keyid).ret = 0 ∧
    (st ≠ 0 → (km_fetch_key_by_id st keyid).stderr =
      ["KM: HTTP fetch failed (bad key_id or KM Down)"]) := by
  constructor
  · by_cases h : st = 0 <;> simp [km_fetch_key_by_id, h]
  · intro hne
    simp [km_fetch_key_by_id, bne_iff_ne, hne]

/-- Witness for C10 at a failing command status. -/
theorem C10_km_fetch_returns_zero_witness :
    (km_fetch_key_by_id 1 [88]).ret = 0 ∧
    (km_fetch_key_by_id 1 [88]).stderr =
      ["KM: HTTP fetch failed (bad key_id or KM Down)"] :=
  ⟨(C10_km_fetch_returns_zero 1 [88]).1,
   (C10_km_fetch_returns_zero 1 [88]).2 (by decide)⟩

/-! ## Claim C7 -/

lemma be4_lor_eq_add (a b c d : Nat) (hb : b < 256) (hc : c < 256)
    (hd : d < 256) :
    (a <<< 24) ||| (b <<< 16) ||| (c <<< 8) ||| d =
      a * 2 ^ 24 + b * 2 ^ 16 + c * 2 ^ 8 + d := by
  have h1 : 2 ^ 16 * b + (2 ^ 8 * c + d) < 2 ^ 24 := by norm_num; omega
  have h2 : 2 ^ 8 * c + d < 2 ^ 16 := by norm_num; omega
  have h3 : d < 2 ^ 8 := by norm_num; omega
  apply Nat.eq_of_testBit_eq
  intro j
  rw [Nat.testBit_lor, Nat.testBit_lor, Nat.testBit_lor, Nat.testBit_shiftLeft,
    Nat.testBit_shiftLeft, Nat.testBit_shiftLeft]
  rw [show a * 2 ^ 24 + b * 2 ^ 16 + c * 2 ^ 8 + d =
    2 ^ 24 * a + (2 ^ 16 * b + (2 ^ 8 * c + d)) by ring]
  rw [Nat.testBit_mul_pow_two_add a h1 j, Nat.testBit_mul_pow_two_add b h2,
    Nat.testBit_mul_pow_two_add c h3]
  by_cases j8 : j < 8
  · simp [(by omega : ¬ j ≥ 8), (by omega : ¬ j ≥ 24), (by omega : ¬ j ≥ 16), j8,
      (by omega : j < 16), (by omega : j < 24)]
  · by_cases j16 : j < 16
    · have hd8 : d.testBit j = false :=
        Nat.testBit_lt_two_pow
          (lt_of_lt_of_le h3 (Nat.pow_le_pow_right (by omega) (by omega)))
      simp [j16, j8, hd8, (by omega : ¬ j ≥ 16), (by omega : ¬ j ≥ 24),
        (by omega : j ≥ 8), (by omega : j < 24)]
    · have hd8 : d.testBit j = false :=
        Nat.testBit_lt_two_pow
          (lt_of_lt_of_le h3 (Nat.pow_le_pow_right (by omega) (by omega)))
      have hc8 : c.testBit (j - 8) = false :=
        Nat.testBit_lt_two_pow (lt_of_lt_of_le hc (by
          have h216 : (256 : Nat) = 2 ^ 8 := by norm_num
          rw [h216]
          exact Nat.pow_le_pow_right (by omega) (by omega)))
      by_cases j24 : j < 24
      · simp [j24, j16, j8, hd8, hc8, (by omega : ¬ j ≥ 24), (by omega : j ≥ 16),
          (by omega : j ≥ 8)]
      · have hb16 : b.testBit (j - 16) = false :=
          Nat.testBit_lt_two_pow (lt_of_lt_of_le hb (by
            have h216 : (256 : Nat) = 2 ^ 8 := by norm_num
            rw [h216]
            exact Nat.pow_le_pow_right (by omega) (by omega)))
        simp [j24, j16, j8, hd8, hc8, hb16, (by omega : j ≥ 24), (by omega : j ≥ 16),
          (by omega : j ≥ 8)]

lemma set_last4 (y : List Nat) (hy : y.length = 16) (a b c d : Nat) :
    (((y.set 12 a).set 13 b).set 14 c).set 15 d = y.take 12 ++ [a, b, c, d] := by
  apply List.ext_getElem (by simp [hy])
  intro i h1 h2
  simp only [List.getElem_set]
  by_cases hi : i < 12
  · rw [List.getElem_append_left (by simp [hy]; omega)]
    rw [List.getElem_take]
    simp only [if_neg (by omega : ¬ 15 = i), if_neg (by omega : ¬ 14 = i),
      if_neg (by omega : ¬ 13 = i), if_neg (by omega : ¬ 12 = i)]
  · have hlen12 : (y.take 12).length = 12 := by simp [hy]
    have hi16 : i < 16 := by
      simpa [hy] using h1
    rw [List.getElem_append_right (by omega)]
    simp only [hlen12]
    interval_cases i <;> simp

lemma getD_mem {l : List Nat} {i : Nat} (h : i < l.length) : l.getD i 0 ∈ l := by
  rw [List.getD_eq_getElem _ _ h]
  exact List.getElem_mem h

/-- Claim C7: `inc32` replaces bytes 12..15, read as a 32-bit big-endian
integer n, with (n + 1) mod 2^32 written big-endian, and leaves bytes 0..11
unchanged; in particular n = 2^32 - 1 wraps to 0 without altering the upper
96 bits; and `gctr` applies exactly one `inc32` increment after each
16-byte keystream block (the counter for the i-th block is the i-fold
increment of the initial counter block). -/
theorem C7_inc32_semantics (y : List Nat) (hy : y.length = 16)
    (hb : ∀ x ∈ y, x < 256) :
    (inc32 y = y.take 12 ++
      [((y.getD 12 0 * 2 ^ 24 + y.getD 13 0 * 2 ^ 16 + y.getD 14 0 * 2 ^ 8 +
          y.getD 15 0 + 1) % 2 ^ 32) / 2 ^ 24 % 256,
       ((y.getD 12 0 * 2 ^ 24 + y.getD 13 0 * 2 ^ 16 + y.getD 14 0 * 2 ^ 8 +
          y.getD 15 0 + 1) % 2 ^ 32) / 2 ^ 16 % 256,
       ((y.getD 12 0 * 2 ^ 24 + y.getD 13 0 * 2 ^ 16 + y.getD 14 0 * 2 ^ 8 +
          y.getD 15 0 + 1) % 2 ^ 32) / 2 ^ 8 % 256,
       ((y.getD 12 0 * 2 ^ 24 + y.getD 13 0 * 2 ^ 16 + y.getD 14 0 * 2 ^ 8 +
          y.getD 15 0 + 1) % 2 ^ 32) % 256]) ∧
    (inc32 y).take 12 = y.take 12 ∧
    (y.getD 12 0 * 2 ^ 24 + y.getD 13 0 * 2 ^ 16 + y.getD 14 0 * 2 ^ 8 +
        y.getD 15 0 = 2 ^ 32 - 1 →
      inc32 y = y.take 12 ++ [0, 0, 0, 0]) ∧
    (∀ (E : List Nat → List Nat → List Nat) (key c input : List Nat) (i : Nat),
      (gctr E key c input).drop (16 * i) =
        gctr E key (inc32^[i] c) (input.drop (16 * i))) := by
  have h12 : y.getD 12 0 < 256 := hb _ (getD_mem (by omega))
  have h13 : y.getD 13 0 < 256 := hb _ (getD_mem (by omega))
  have h14 : y.getD 14 0 < 256 := hb _ (getD_mem (by omega))
  have h15 : y.getD 15 0 < 256 := hb _ (getD_mem (by omega))
  have hmain : inc32 y = y.take 12 ++
      [((y.getD 12 0 * 2 ^ 24 + y.getD 13 0 * 2 ^ 16 + y.getD 14 0 * 2 ^ 8 +
          y.getD 15 0 + 1) % 2 ^ 32) / 2 ^ 24 % 256,
       ((y.getD 12 0 * 2 ^ 24 + y.getD 13 0 * 2 ^ 16 + y.getD 14 0 * 2 ^ 8 +
          y.getD 15 0 + 1) % 2 ^ 32) / 2 ^ 16 % 256,
       ((y.getD 12 0 * 2 ^ 24 + y.getD 13 0 * 2 ^ 16 + y.getD 14 0 * 2 ^ 8 +
          y.getD 15 0 + 1) % 2 ^ 32) / 2 ^ 8 % 256,
       ((y.getD 12 0 * 2 ^ 24 + y.getD 13 0 * 2 ^ 16 + y.getD 14 0 * 2 ^ 8 +
          y.getD 15 0 + 1) % 2 ^ 32) % 256] := by
    rw [inc32]
    simp only [be4_lor_eq_add _ _ _ _ h13 h14 h15]
    rw [set_last4 y hy]
    rw [Nat.shiftRight_eq_div_pow, Nat.shiftRight_eq_div_pow,
      Nat.shiftRight_eq_div_pow]
    norm_num
  refine ⟨hmain, ?_, ?_, ?_⟩
  · rw [hmain, List.take_append_of_le_length (by simp [hy])]
    rw [List.take_take]
    norm_num
  · intro hwrap
    rw [hmain, hwrap]
    norm_num
  · intro E key c input i
    induction i generalizing c input with
    | zero => simp
    | succ m ihm =>
      have hsplit : 16 * (m + 1) = 16 + 16 * m := by ring
      rw [hsplit, ← List.drop_drop, ← List.drop_drop, gctr_drop16,
        ihm (inc32 c) (input.drop 16), Function.iterate_succ_apply]

/-- Witness for C7 at a concrete counter block with low 32 bits all-ones. -/
theorem C7_inc32_semantics_witness :
    inc32 (List.replicate 12 7 ++ [255, 255, 255, 255]) =
      (List.replicate 12 7 ++ [255, 255, 255, 255]).take 12 ++ [0, 0, 0, 0] ∧
    (inc32 (List.replicate 12 7 ++ [255, 255, 255, 255])).take 12 =
      (List.replicate 12 7 ++ [255, 255, 255, 255]).take 12 :=
  ⟨(C7_inc32_semantics (List.replicate 12 7 ++ [255, 255, 255, 255])
      (by decide) (by decide)).2.2.1 (by decide),
   (C7_inc32_semantics (List.replicate 12 7 ++ [255, 255, 255, 255])
      (by decide) (by decide)).2.1⟩

/-! ## Claim C4 -/

lemma specBlocks_nil : specBlocks [] = [] := by
  rw [specBlocks]; simp

lemma specBlocks_ne_nil (L : List Nat) (h : L ≠ []) :
    specBlocks L =
      (L.take 16 ++ List.replicate (16 - min 16 L.length) 0) ::
        specBlocks (L.drop 16) := by
  rw [specBlocks]; simp [h]

lemma blkAt_zero (L : List Nat) :
    blkAt L 0 = L.take 16 ++ List.replicate (16 - min 16 L.length) 0 := by
  rw [blkAt]; simp

lemma blkAt_drop16 (L : List Nat) (i : Nat) :
    blkAt L (16 * (i + 1)) = blkAt (L.drop 16) (16 * i) := by
  rw [blkAt, blkAt, List.drop_drop, List.length_drop]
  rw [show 16 + 16 * i = 16 * (i + 1) by ring,
    show L.length - 16 - 16 * i = L.length - 16 * (i + 1) by omega]

lemma nblocks_pos_step (len : Nat) (h : 1 ≤ len) :
    nblocks len = nblocks (len - 16) + 1 := by
  rw [nblocks, nblocks]
  omega

lemma foldl_ext_mem {a b : Type} (f g : b → a → b) (l : List a)
    (h : ∀ (x : b) (y : a), y ∈ l → f x y = g x y) :
    ∀ init, l.foldl f init = l.foldl g init := by
  induction l with
  | nil => intro init; rfl
  | cons hd tl ih =>
    intro init
    rw [List.foldl_cons, List.foldl_cons, h init hd (by simp)]
    exact ih (fun x y hy => h x y (by simp [hy])) _

lemma ghash_blocks_eq_specBlocks (H : List Nat) :
    ∀ (n : Nat) (L Y : List Nat), L.length ≤ n →
      ghash_blocks H L Y =
        (specBlocks L).foldl (fun Y B => gcm_mult (xor16 Y B) H) Y := by
  intro n
  induction n with
  | zero =>
    intro L Y h
    have : L = [] := List.length_eq_zero.mp (by omega)
    subst this
    rw [specBlocks_nil, ghash_blocks]
    simp [nblocks]
  | succ m ih =>
    intro L Y h
    by_cases hnil : L = []
    · subst hnil
      rw [specBlocks_nil, ghash_blocks]
      simp [nblocks]
    · have hpos : 1 ≤ L.length := by
        have : L.length ≠ 0 := by simpa [List.length_eq_zero] using hnil
        omega
      rw [specBlocks_ne_nil L hnil, List.foldl_cons]
      rw [ghash_blocks, nblocks_pos_step L.length hpos, List.range_succ_eq_map,
        List.foldl_cons, List.foldl_map]
      have hdroplen : (L.drop 16).length = L.length - 16 := by simp
      rw [← hdroplen]
      have hbody : ∀ (Y2 : List Nat),
          (List.range (nblocks (L.drop 16).length)).foldl
            (fun y i => gcm_mult (xor16 y (blkAt L (16 * Nat.succ i))) H) Y2 =
          (List.range (nblocks (L.drop 16).length)).foldl
            (fun y i => gcm_mult (xor16 y (blkAt (L.drop 16) (16 * i))) H) Y2 := by
        intro Y2
        apply foldl_ext_mem
        intro y i _
        rw [show Nat.succ i = i + 1 from rfl, blkAt_drop16]
      rw [hbody]
      rw [← ghash_blocks]
      rw [ih (L.drop 16) _ (by simp; omega)]
      rw [blkAt_zero]

/-- Claim C4: Galois Hash reference correctness.  The code's `ghash`
(offset-indexed block loops over AAD and ciphertext, then the big-endian
bit-length block, each block XORed into Y and multiplied by H with
`gcm_mult`, the MSB-first conditional-XOR-and-shift multiplication) equals
the computation worded in the spec (`ghash_spec`, over the explicit list of
successive zero-padded 16-byte blocks). -/
theorem C4_ghash_matches_spec (H A C : List Nat) :
    ghash H A C = ghash_spec H A C := by
  rw [ghash, ghash_spec]
  rw [ghash_blocks_eq_specBlocks H A.length A zero16 le_rfl]
  rw [ghash_blocks_eq_specBlocks H C.length C _ le_rfl]

/-! ## Claim C8 -/

/-- Claim C8 (refuting theorem): the GCM entry point performs no key-length
check whatsoever — for every block cipher `E` and every key list of any
length (including a 15-byte key), `aes128_gcm_encrypt` returns success (0)
exactly when the IV is nonempty; no invalid-key-length error exists in the
code (`key_expansion_128` in aes.h:38 returns void and takes no length
parameter, so it cannot signal one). -/
theorem C8_no_key_length_rejection (E : List Nat → List Nat → List Nat)
    (pt aad key iv : List Nat) :
    (aes128_gcm_encrypt E pt aad key iv).ret = 0 ↔ iv ≠ [] := by
  rw [aes128_gcm_encrypt]
  by_cases h : iv = [] <;> simp [h]

